import Mathlib

/-!
Shallow embedding of the configuration validation and serialization logic of
the content-cache-backends-config operator (file `src/state.py`), together
with proofs of the specification claims.  Python strings are modelled as
`List Char` (with `String` wrappers at the interface), Python exceptions as
`Except` values.  The pydantic / `ipaddress` library behaviour that the code
relies on (string constraints, `IPvAnyAddress` parsing, error aggregation) is
embedded following the observable behaviour documented by the library and
exercised by the unit tests of the repository.
-/

set_option maxRecDepth 100000

/-- Single-quote character, kept out of string literals on purpose. -/
def sqc : Char := Char.ofNat 39

/-- Backslash character. -/
def bsl : Char := Char.ofNat 92

/-- Single-quote as a one-character string. -/
def sqs : String := String.mk [sqc]

/-- Whitespace test matching the default strip set of Python `str.strip`
(space, tab, newline, carriage return, vertical tab, form feed; the rare
non-ASCII whitespace code points are not modelled). -/
def pyIsSpace (c : Char) : Bool :=
  c = ' ' || c = '\t' || c = '\n' || c = '\r' || c = Char.ofNat 11 || c = Char.ofNat 12

/-- Drop leading whitespace, as the left half of Python `str.strip`. -/
def ltrim (l : List Char) : List Char := l.dropWhile pyIsSpace

/-- Drop trailing whitespace, as the right half of Python `str.strip`. -/
def rtrim : List Char → List Char
  | [] => []
  | c :: rest =>
    match rtrim rest with
    | [] => if pyIsSpace c then [] else [c]
    | r :: rs => c :: r :: rs

/-- Python `str.strip` on character lists. -/
def pyStripChars (l : List Char) : List Char := rtrim (ltrim l)

/-- Python `str.strip` on strings. -/
def pyStrip (s : String) : String := String.mk (pyStripChars s.data)

/-- Python `str.lower` (ASCII letters; the inputs of this charm are ASCII). -/
def pyLower (s : String) : String := String.mk (s.data.map Char.toLower)

/-- Split a character list at every occurrence of a separator character,
like Python `str.split(sep)`: the result is never empty and keeps empty
pieces. -/
def splitOnChar (sep : Char) : List Char → List (List Char)
  | [] => [[]]
  | c :: rest =>
    if c = sep then [] :: splitOnChar sep rest
    else
      match splitOnChar sep rest with
      | [] => [[c]]
      | t :: ts => (c :: t) :: ts

/-- Worker of `wsSplit`, carrying the reversed current token. -/
def wsSplitAux : List Char → List Char → List (List Char)
  | [], acc => if acc = [] then [] else [acc.reverse]
  | c :: rest, acc =>
    if pyIsSpace c then
      if acc = [] then wsSplitAux rest []
      else acc.reverse :: wsSplitAux rest []
    else wsSplitAux rest (c :: acc)

/-- Split on runs of whitespace, dropping empty pieces, like no-argument
Python `str.split()`. -/
def wsSplit (l : List Char) : List (List Char) := wsSplitAux l []

/-- Join character lists with a separator list, like `str.join`. -/
def joinSep (sep : List Char) : List (List Char) → List Char
  | [] => []
  | [p] => p
  | p :: q :: ps => p ++ sep ++ joinSep sep (q :: ps)

/-- Decimal value of a digit list (most significant digit first). -/
def natOfDigits (l : List Char) : Nat :=
  l.foldl (fun a c => a * 10 + (c.toNat - 48)) 0

/-- Value of a non-empty all-decimal-digit list, and `none` otherwise. -/
def digitsVal? (l : List Char) : Option Nat :=
  if l ≠ [] ∧ l.all Char.isDigit then some (natOfDigits l) else none

/-- Python `int(s)` restricted to an optional sign followed by decimal
digits (underscore separators and non-ASCII digits are not modelled). -/
def pyInt? (l : List Char) : Option Int :=
  match l with
  | '-' :: rest => (digitsVal? rest).map (fun n => -(n : Int))
  | '+' :: rest => (digitsVal? rest).map (fun n => (n : Int))
  | _ => (digitsVal? l).map (fun n => (n : Int))

/-- Map with an `Option`-producing function, failing if any element fails,
as a Python loop that may raise on any element. -/
def optionMapM (f : α → Option β) : List α → Option (List β)
  | [] => some []
  | a :: as =>
    match f a, optionMapM f as with
    | some b, some bs => some (b :: bs)
    | _, _ => none

/-- Value of a hexadecimal digit character. -/
def hexDigitVal? (c : Char) : Option Nat :=
  if c.isDigit then some (c.toNat - 48)
  else if 'a' ≤ c ∧ c ≤ 'f' then some (10 + c.toNat - 97)
  else if 'A' ≤ c ∧ c ≤ 'F' then some (10 + c.toNat - 65)
  else none

/-- Lowercase hexadecimal rendering of a number, like Python percent-x. -/
def hexChars (n : Nat) : List Char := Nat.toDigits 16 n

/-- Python `repr` of a string: picks double quotes when the string holds a
single quote and no double quote, escaping backslashes, the quote character
and common control characters. -/
def pyReprStr (s : String) : String :=
  let q : Char := if sqc ∈ s.data ∧ ¬ '"' ∈ s.data then '"' else sqc
  let esc : Char → List Char := fun c =>
    if c = bsl then [bsl, bsl]
    else if c = q then [bsl, q]
    else if c = '\n' then [bsl, 'n']
    else if c = '\r' then [bsl, 'r']
    else if c = '\t' then [bsl, 't']
    else [c]
  String.mk ([q] ++ s.data.flatMap esc ++ [q])

/-- Python `repr` of a list of strings, as produced by an f-string holding a
list value. -/
def pyListRepr (msgs : List String) : String :=
  "[" ++ String.intercalate ", " (msgs.map pyReprStr) ++ "]"

/-- Parse one dotted-quad octet as Python `ipaddress` does: non-empty, at
most three ASCII decimal digits, no leading zero, value at most 255. -/
def parseOctet (l : List Char) : Option Nat :=
  if l = [] then none
  else if ¬ l.all Char.isDigit then none
  else if 3 < l.length then none
  else if l ≠ ['0'] ∧ l.head? = some '0' then none
  else if 255 < natOfDigits l then none
  else some (natOfDigits l)

/-- Parse an IPv4 address literal into its four octets, as Python
`ipaddress.IPv4Address`: exactly four dot-separated octets. -/
def parseIPv4Chars (l : List Char) : Option (Nat × Nat × Nat × Nat) :=
  if l = [] then none
  else
    match splitOnChar '.' l with
    | [a, b, c, d] =>
      match parseOctet a, parseOctet b, parseOctet c, parseOctet d with
      | some x, some y, some z, some w => some (x, y, z, w)
      | _, _, _, _ => none
    | _ => none

/-- Parse one IPv6 hextet as Python `ipaddress` does: non-empty, at most
four hexadecimal digits. -/
def parseHextet (l : List Char) : Option Nat :=
  if l = [] then none
  else if ¬ l.all (fun c => (hexDigitVal? c).isSome) then none
  else if 4 < l.length then none
  else some (l.foldl (fun a c => a * 16 + (hexDigitVal? c).getD 0) 0)

/-- Fold hextet values into an integer, big-endian, 16 bits per hextet. -/
def foldHextets (l : List Nat) : Nat :=
  l.foldl (fun a h => a * 65536 + h) 0

/-- Break a character list around the first occurrence of a separator,
like Python `str.partition` restricted to the found case. -/
def breakAt (sep : Char) : List Char → Option (List Char × List Char)
  | [] => none
  | c :: rest =>
    if c = sep then some ([], rest)
    else (breakAt sep rest).map (fun p => (c :: p.1, p.2))

/-- Parse an IPv6 address literal without scope into its 128-bit value,
following the algorithm of Python `ipaddress._ip_int_from_string`: split on
colons, expand a trailing dotted-quad, then locate at most one inner empty
part standing for the double colon. -/
def parseIPv6NoScope (l : List Char) : Option Nat :=
  if l = [] then none
  else
    let parts0 := splitOnChar ':' l
    if parts0.length < 3 then none
    else
      let expanded : Option (List (List Char)) :=
        match parts0.getLast? with
        | none => none
        | some last =>
          if '.' ∈ last then
            (parseIPv4Chars last).map (fun q =>
              parts0.dropLast ++ [hexChars (q.1 * 256 + q.2.1), hexChars (q.2.2.1 * 256 + q.2.2.2)])
          else some parts0
      match expanded with
      | none => none
      | some parts =>
        if 9 < parts.length then none
        else
          let inner := (parts.drop 1).dropLast
          let emptyCount := inner.countP (fun p => p.isEmpty)
          if 1 < emptyCount then none
          else if emptyCount = 1 then
            let i := 1 + inner.findIdx (fun p => p.isEmpty)
            let hi0 := i
            let lo0 := parts.length - i - 1
            let headEmpty := parts.head? = some []
            let lastEmpty := parts.getLast? = some []
            if headEmpty ∧ hi0 ≠ 1 then none
            else if lastEmpty ∧ lo0 ≠ 1 then none
            else
              let hi := if headEmpty then 0 else hi0
              let lo := if lastEmpty then 0 else lo0
              if 7 < hi + lo then none
              else
                match optionMapM parseHextet (parts.take hi),
                      optionMapM parseHextet (parts.drop (parts.length - lo)) with
                | some hs, some ls =>
                  some (foldHextets hs * 65536 ^ (8 - hi - lo + ls.length) + foldHextets ls)
                | _, _ => none
          else
            if parts.length ≠ 8 then none
            else (optionMapM parseHextet parts).map foldHextets

/-- Parse an IPv6 literal with an optional percent-separated scope zone,
as Python `ipaddress.IPv6Address`. -/
def parseIPv6Chars (l : List Char) : Option (Nat × Option (List Char)) :=
  match breakAt '%' l with
  | some (addr, scope) =>
    if scope = [] ∨ '%' ∈ scope then none
    else (parseIPv6NoScope addr).map (fun v => (v, some scope))
  | none => (parseIPv6NoScope l).map (fun v => (v, none))

/-- Validated IP address value, either version, as stored by pydantic
`IPvAnyAddress`. -/
inductive IpAddr where
  | v4 (a b c d : Nat)
  | v6 (value : Nat) (scope : Option (List Char))
deriving DecidableEq

/-- Parse a string as IPv4 and otherwise as IPv6, exactly as pydantic
`IPvAnyAddress` tries `IPv4Address` first and then `IPv6Address`. -/
def ipAnyParse (s : String) : Option IpAddr :=
  match parseIPv4Chars s.data with
  | some (a, b, c, d) => some (.v4 a b c d)
  | none =>
    match parseIPv6Chars s.data with
    | some (v, sc) => some (.v6 v sc)
    | none => none

/-- Decimal rendering of a natural number. -/
def natRepr (n : Nat) : String := String.mk (Nat.toDigits 10 n)

/-- Hextets of a 128-bit value, high group first, lowercase hex without
padding, as the rendering step of Python `ipaddress` produces them. -/
def v6Hextets (v : Nat) : List (List Char) :=
  (List.range 8).map (fun i => hexChars (v / 65536 ^ (7 - i) % 65536))

/-- First longest run of zero hextets (start, length), following the
double-colon compression scan of Python `ipaddress`. -/
def bestZeroRun (hx : List (List Char)) : Nat × Nat :=
  let step := fun (st : Nat × Nat × Nat × Nat × Nat) (h : List Char) =>
    let idx := st.1
    let curStart := st.2.1
    let curLen := st.2.2.1
    let bestStart := st.2.2.2.1
    let bestLen := st.2.2.2.2
    if h = ['0'] then
      let cs := if curLen = 0 then idx else curStart
      let cl := curLen + 1
      if bestLen < cl then (idx + 1, cs, cl, cs, cl)
      else (idx + 1, cs, cl, bestStart, bestLen)
    else (idx + 1, 0, 0, bestStart, bestLen)
  let r := hx.foldl step (0, 0, 0, 0, 0)
  (r.2.2.2.1, r.2.2.2.2)

/-- Compressed textual rendering of an IPv6 value, as Python `str` of an
`IPv6Address`. -/
def v6Render (v : Nat) : List Char :=
  let hx := v6Hextets v
  let bs := (bestZeroRun hx).1
  let bl := (bestZeroRun hx).2
  if 1 < bl then
    let hx2 := if bs + bl = hx.length then hx ++ [[]] else hx
    let hx3 := hx2.take bs ++ [[]] ++ hx2.drop (bs + bl)
    let hx4 := if bs = 0 then [] :: hx3 else hx3
    joinSep [':'] hx4
  else joinSep [':'] hx

/-- Textual form of a stored IP address, as Python `str` renders the
`ipaddress` objects during serialization. -/
def ipStr : IpAddr → String
  | .v4 a b c d => natRepr a ++ "." ++ natRepr b ++ "." ++ natRepr c ++ "." ++ natRepr d
  | .v6 v sc =>
    String.mk (v6Render v) ++ (match sc with | some z => "%" ++ String.mk z | none => "")

/-- Protocol enumeration of `state.py` (`Protocol`): http or https. -/
inductive Protocol where
  | http
  | https
deriving DecidableEq

/-- Enum value string of a protocol, as the str-enum value in `state.py`. -/
def protocolStr : Protocol → String
  | .http => "http"
  | .https => "https"

/-- Conversion of a string to the `Protocol` str-enum, as pydantic converts
configuration input: the string must equal one of the enum values. -/
def parseProtocol (s : String) : Option Protocol :=
  if s = "http" then some .http
  else if s = "https" then some .https
  else none

/-- Validated configuration record of `state.py` (`Configuration`): hostname,
path, backends as a sequence of IP addresses, and protocol. -/
structure Configuration where
  hostname : String
  path : String
  backends : List IpAddr
  protocol : Protocol
deriving DecidableEq

/-- Python exception values that the embedded code can raise. -/
inductive PyErr where
  | configurationError (msg : String)
  | pydanticSerializationError (msg : String)
  | valueError (msg : String)
deriving DecidableEq

/-- Embedding of `Configuration.validate_hostname`: reject a value longer
than 255 characters, then require every dot-separated segment to match the
anchored pattern of one to sixty-three characters drawn from ASCII letters,
digits and hyphen, with no hyphen at either end (the regex
`(?!-)[A-Z\d-]{1,63}(?<!-)$` under IGNORECASE, read over ASCII). -/
def validSegment (l : List Char) : Bool :=
  decide (1 ≤ l.length) && decide (l.length ≤ 63) &&
    l.all (fun c => c.isAlpha || c.isDigit || c = '-') &&
    !(l.head? = some '-') && !(l.getLast? = some '-')

/-- Hostname validator of `state.py`, returning the value unchanged on
success and the message of the raised `ValueError` on failure. -/
def validateHostname (s : String) : Except String String :=
  if 255 < s.data.length then .error "Hostname cannot be longer than 255"
  else if (splitOnChar '.' s.data).all validSegment then .ok s
  else
    .error
      "Each Hostname segment must be less than 64 in length, and consist of alphanumeric and hyphen"

/-- Character class of the path regex `[/A-Z0-9.\-_~!$&'()*+,;=:@]+` under
IGNORECASE (RFC 3986 pchar set plus slash). -/
def isPathChar (c : Char) : Bool :=
  c.isAlpha || c.isDigit ||
    c ∈ ['/', '.', '-', '_', '~', '!', '$', '&', sqc, '(', ')', '*', '+', ',', ';', '=', ':', '@']

/-- Path validator of `state.py` (`validate_path`), for a value already
known to be non-empty: full match of the path character class. -/
def validPath (s : String) : Bool :=
  !s.data.isEmpty && s.data.all isPathChar

/-- One collected pydantic validation failure: field name (first element of
the error location), the displayed input, and the error message. -/
structure FieldError where
  field : String
  input : String
  msg : String
deriving DecidableEq

/-- Message pydantic reports when a string violates the min-length-one
constraint on hostname and path. -/
def minLengthMsg : String := "String should have at least 1 character"

/-- Message pydantic reports when a backend entry is no IP address. -/
def ipAnyMsg : String := "value is not a valid IPv4 or IPv6 address"

/-- Message pydantic reports when the protocol is no enum value. -/
def protocolMsg : String :=
  "Input should be " ++ sqs ++ "http" ++ sqs ++ " or " ++ sqs ++ "https" ++ sqs

/-- Errors collected for the hostname field: the min-length constraint is
checked first and, only when it passes, the hostname validator runs; a
validator failure is reported with the prefix pydantic adds to a raised
`ValueError`. -/
def hostnameErrors (h : String) : List FieldError :=
  if h = "" then [⟨"hostname", h, minLengthMsg⟩]
  else
    match validateHostname h with
    | .ok _ => []
    | .error m => [⟨"hostname", h, "Value error, " ++ m⟩]

/-- Errors collected for the path field, mirroring `validate_path` behind
the min-length constraint. -/
def pathErrors (p : String) : List FieldError :=
  if p = "" then [⟨"path", p, minLengthMsg⟩]
  else if validPath p then []
  else [⟨"path", p, "Value error, Path contains non-allowed character"⟩]

/-- Errors collected for the backends tuple: pydantic reports one error per
entry that is no IP address, in entry order, with the entry itself as the
displayed input. -/
def backendsErrors (entries : List String) : List FieldError :=
  entries.filterMap (fun e =>
    if (ipAnyParse e).isSome then none else some ⟨"backends", e, ipAnyMsg⟩)

/-- Errors collected for the protocol field. -/
def protocolErrors (pr : String) : List FieldError :=
  if (parseProtocol pr).isSome then [] else [⟨"protocol", pr, protocolMsg⟩]

/-- Backend entries as `from_charm` produces them on line 124 of `state.py`:
split the stripped backends input on commas and strip every entry. -/
def backendEntries (s : String) : List String :=
  (splitOnChar ',' (pyStrip s).data).map (fun e => String.mk (pyStripChars e))

/-- Raw charm configuration inputs read by `from_charm`, one string per
configuration option (an absent option reads as the empty string, the
default of `charm.config.get`). -/
structure RawConfig where
  hostname : String
  path : String
  protocol : String
  backends : String
deriving DecidableEq

/-- Collected pydantic validation errors of a `from_charm` call, in field
declaration order: hostname, path, backends entries, protocol. -/
def fieldErrorList (raw : RawConfig) : List FieldError :=
  hostnameErrors (pyStrip raw.hostname) ++
    pathErrors (pyStrip raw.path) ++
    backendsErrors (backendEntries raw.backends) ++
    protocolErrors (pyStrip (pyLower raw.protocol))

/-- Formatted text of one collected error, as the list comprehension in
`from_charm` builds it from location, input and message. -/
def fmtFieldError (e : FieldError) : String :=
  e.field ++ " = " ++ e.input ++ ": " ++ e.msg

/-- Aggregate message of the `ConfigurationError` raised by `from_charm`
when pydantic validation fails, an f-string holding the message list. -/
def configErrMsg (errs : List FieldError) : String :=
  "Config error: " ++ pyListRepr (errs.map fmtFieldError)

/-- Embedding of `Configuration.from_charm` (lines 104 to 139 of
`state.py`): strip the four inputs (lowercasing the protocol first),
short-circuit on an empty backends string, split and strip the backend
entries, then run the pydantic validation that either yields the record or
aggregates every collected failure into one `ConfigurationError`. -/
def fromCharm (raw : RawConfig) : Except PyErr Configuration :=
  let hostname := pyStrip raw.hostname
  let path := pyStrip raw.path
  let protocol := pyStrip (pyLower raw.protocol)
  if pyStrip raw.backends = "" then
    .error (.configurationError "Empty backends configuration found")
  else
    let entries := backendEntries raw.backends
    match optionMapM ipAnyParse entries, parseProtocol protocol with
    | some ips, some proto =>
      match fieldErrorList raw with
      | [] => .ok ⟨hostname, path, ips, proto⟩
      | e :: es => .error (.configurationError (configErrMsg (e :: es)))
    | _, _ => .error (.configurationError (configErrMsg (fieldErrorList raw)))

/-- Lookup in the charm configuration mapping with the empty-string default
of `charm.config.get(name, "")`. -/
def configGet (name : String) (cfg : List (String × String)) : String :=
  match cfg.find? (fun kv => kv.1 = name) with
  | some kv => kv.2
  | none => ""

/-- Run `from_charm` against a charm whose configuration mapping is the
given key-value list, reading the four recognized option names. -/
def fromCharmConfig (cfg : List (String × String)) : Except PyErr Configuration :=
  fromCharm
    ⟨configGet "hostname" cfg, configGet "path" cfg,
      configGet "protocol" cfg, configGet "backends" cfg⟩

/-- JSON string escaping of `json.dumps` for the characters that can occur
here (backend texts are ASCII IP renderings). -/
def jsonEscape (c : Char) : List Char :=
  if c = '"' then [bsl, '"']
  else if c = bsl then [bsl, bsl]
  else if c = '\n' then [bsl, 'n']
  else if c = '\r' then [bsl, 'r']
  else if c = '\t' then [bsl, 't']
  else [c]

/-- Rendering of `json.dumps` on a list of strings, with the default
separator of comma followed by space. -/
def jsonDumpStringList (xs : List String) : String :=
  "[" ++
    String.intercalate ", "
      (xs.map (fun s => "\"" ++ String.mk (s.data.flatMap jsonEscape) ++ "\"")) ++
    "]"

/-- Embedding of `Configuration.to_integration_data` (lines 141 to 155 of
`state.py`) on the success path: `model_dump_json` turns the record into a
JSON object whose fields keep declaration order, with the backends tuple as
a list of IP strings and the protocol as its enum value; after
`json.loads`, string values pass through unchanged and the one non-string
value (the backends list) goes through `json.dumps`. -/
def toIntegrationData (cfg : Configuration) : List (String × String) :=
  [("hostname", cfg.hostname),
    ("path", cfg.path),
    ("backends", jsonDumpStringList (cfg.backends.map ipStr)),
    ("protocol", protocolStr cfg.protocol)]

/-- Run of `to_integration_data` with an injectable internal failure of
`model_dump_json` or of `json.dumps`, the two faults the repository unit
tests monkeypatch.  The method body in `state.py` installs no exception
handler, so an injected fault propagates raw, with its own exception
type. -/
def toIntegrationDataRun (cfg : Configuration)
    (dumpJsonFault : Option String) (dumpsFault : Option String) :
    Except PyErr (List (String × String)) :=
  match dumpJsonFault with
  | some m => .error (.pydanticSerializationError m)
  | none =>
    match dumpsFault with
    | some m => .error (.valueError m)
    | none => .ok (toIntegrationData cfg)

/-- Validation followed by serialization, the full pipeline of the two
public operations of `state.py`. -/
def serializeAssemble (raw : RawConfig) : Except PyErr (List (String × String)) :=
  (fromCharm raw).map toIntegrationData

/-- Pipeline starting from a charm configuration mapping. -/
def serializeAssembleConfig (cfg : List (String × String)) :
    Except PyErr (List (String × String)) :=
  (fromCharmConfig cfg).map toIntegrationData

/-- Failure cases of one `proxy_cache_valid` directive, named after the
distinct error messages of the repository unit tests. -/
inductive CacheDirectiveError where
  | missingTime (item : String)
  | nonIntStatus (tok : String)
  | invalidStatus (code : Int)
  | invalidTime (tok : String)
  | nonIntTime (tok : String)
  | nonPositiveTime (tok : String)
deriving DecidableEq

/-- Duration units accepted by the directive grammar.  The repository unit
tests pin this set: the directive with unit y is rejected as an invalid
time, so the set stops at M. -/
def allowedUnits : List Char := ['s', 'm', 'h', 'd', 'w', 'M']

/-- Check the leading status-code tokens of a directive in order: each must
be an integer between 100 and 599. -/
def parseStatusCodes : List (List Char) → Except CacheDirectiveError (List Int)
  | [] => .ok []
  | t :: ts =>
    match pyInt? t with
    | none => .error (.nonIntStatus (String.mk t))
    | some n =>
      if n < 100 ∨ 599 < n then .error (.invalidStatus n)
      else (parseStatusCodes ts).map (fun ns => n :: ns)

/-- Modelled from the spec: the `proxy_cache_valid` directive parser is not
part of the sources under `src`, only its unit tests are, so this definition
follows section 4.1 of the spec, fixed by the error messages those tests
expect.  A directive is split on whitespace; it needs at least two tokens;
every token but the last must be an integer status code between 100 and
599; the last token carries a trailing unit drawn from `allowedUnits`
preceded by a positive integer duration. -/
def parseCacheDirective (item : String) : Except CacheDirectiveError (List Int × Int × Char) :=
  let toks := wsSplit item.data
  if toks.length < 2 then .error (.missingTime (pyStrip item))
  else
    let timeTok := (toks.getLast?).getD []
    match parseStatusCodes toks.dropLast with
    | .error e => .error e
    | .ok codes =>
      let unit := (timeTok.getLast?).getD ' '
      if ¬ unit ∈ allowedUnits then .error (.invalidTime (String.mk timeTok))
      else
        match pyInt? timeTok.dropLast with
        | none => .error (.nonIntTime (String.mk timeTok))
        | some t =>
          if t ≤ 0 then .error (.nonPositiveTime (String.mk timeTok))
          else .ok (codes, t, unit)

/-- Label predicate of the hostname grammar as the spec states it: one to
sixty-three characters, each an ASCII letter, digit or hyphen, with no
hyphen at either end. -/
def goodLabel (l : List Char) : Prop :=
  1 ≤ l.length ∧ l.length ≤ 63 ∧ (∀ c ∈ l, c.isAlpha ∨ c.isDigit ∨ c = '-') ∧
    l.head? ≠ some '-' ∧ l.getLast? ≠ some '-'

instance : DecidablePred goodLabel := fun l => by
  unfold goodLabel
  infer_instance

/-- C2: for every set of raw inputs whose backends string is empty after
trimming, `from_charm` fails with exactly the message
`Empty backends configuration found`, before any other field validation
and with no aggregation, whatever the other fields hold. -/
theorem fromCharm_empty_backends_short_circuit (raw : RawConfig)
    (h : pyStrip raw.backends = "") :
    fromCharm raw = .error (.configurationError "Empty backends configuration found") := by
  simp [fromCharm, h]

/-- Witness for C2 at a concrete input whose hostname, path and protocol
are all invalid: the empty-backends message still wins. -/
theorem fromCharm_empty_backends_short_circuit_witness :
    fromCharm ⟨"bad host!", "/^", "ftp", "   "⟩ =
      .error (.configurationError "Empty backends configuration found") :=
  fromCharm_empty_backends_short_circuit _ (by decide)

/-- C3 counterexample: the extended `protocol:ip` backend form of the claim
is rejected by the code; the input `http:10.10.1.1,https:10.1.1.2` does not
succeed but fails with one address-parsing error per entry. -/
theorem extended_backend_form_rejected_cex :
    fromCharm ⟨"example.com", "/", "https", "http:10.10.1.1,https:10.1.1.2"⟩ =
      .error (.configurationError ("Config error: [" ++ sqs ++
        "backends = http:10.10.1.1: value is not a valid IPv4 or IPv6 address" ++ sqs ++
        ", " ++ sqs ++
        "backends = https:10.1.1.2: value is not a valid IPv4 or IPv6 address" ++ sqs ++
        "]")) := rfl

/-- C3 amended: the backends parser accepts bare-IP entries only, the
protocol coming from the top-level protocol field; an entry written as
`protocol:ip` fails with an address-parsing error.  Shown on the bare-IP
counterpart of the claim input, which succeeds, while each extended entry
alone is no valid address. -/
theorem backends_bare_ip_only :
    fromCharm ⟨"example.com", "/", "http", "10.10.1.1,10.1.1.2"⟩ =
        .ok ⟨"example.com", "/", [.v4 10 10 1 1, .v4 10 1 1 2], .http⟩ ∧
      ipAnyParse "http:10.10.1.1" = none ∧ ipAnyParse "https:10.1.1.2" = none :=
  ⟨rfl, rfl, rfl⟩

/-- C4: `to_integration_data` in `src/state.py` installs no exception
handler, so an internal serialization fault propagates raw instead of being
wrapped into the `ConfigurationError` with message
`Unable to convert configuration to integration data format` that the claim
(and the unit tests of the repository) require: with the fault the tests
inject into `model_dump_json`, the caller sees the raw
`PydanticSerializationError`, and with the fault injected into
`json.dumps`, the raw `ValueError`. -/
theorem to_integration_data_fault_propagates_raw :
    toIntegrationDataRun ⟨"example.com", "/", [.v4 10 10 1 1], .https⟩
        (some "mock error") none = .error (.pydanticSerializationError "mock error") ∧
      toIntegrationDataRun ⟨"example.com", "/", [.v4 10 10 1 1], .https⟩
        none (some "mock error") = .error (.valueError "mock error") ∧
      PyErr.pydanticSerializationError "mock error" ≠
        PyErr.configurationError
          "Unable to convert configuration to integration data format" :=
  ⟨rfl, rfl, by decide⟩

/-- C6 counterexample: the scenario of the claim supplies the options
`location`, `backends` and `protocol`; the code reads `hostname` and `path`
(there is no `location` option in `src/state.py`), so both read as empty
and validation fails instead of producing the claimed output map. -/
theorem location_scenario_cex :
    serializeAssembleConfig
        [("location", "example.com"), ("backends", "10.10.1.1,10.1.1.2"),
          ("protocol", "https")] =
      .error (.configurationError ("Config error: [" ++ sqs ++
        "hostname = : String should have at least 1 character" ++ sqs ++ ", " ++ sqs ++
        "path = : String should have at least 1 character" ++ sqs ++ "]")) := rfl

/-- C6 amended: with the option names of the code (`hostname` instead of
`location`, plus the required `path`), validation followed by serialization
succeeds and produces the flat string map with the string fields passed
through unchanged and the backends serialized as a JSON array, which
`json.dumps` renders with a comma-space separator. -/
theorem end_to_end_hostname_scenario :
    serializeAssembleConfig
        [("hostname", "example.com"), ("path", "/"),
          ("backends", "10.10.1.1,10.1.1.2"), ("protocol", "https")] =
      .ok [("hostname", "example.com"), ("path", "/"),
        ("backends", "[\"10.10.1.1\", \"10.1.1.2\"]"), ("protocol", "https")] := rfl

/-- C9: validation followed by serialization is deterministic: the embedded
pipeline is a pure function of the raw inputs (the Python code reads no
global mutable state, dict iteration follows insertion order and
`json.dumps` is deterministic), so equal inputs give byte-identical output
maps on every run. -/
theorem serializeAssemble_deterministic (raw1 raw2 : RawConfig) (h : raw1 = raw2) :
    serializeAssemble raw1 = serializeAssemble raw2 := by
  rw [h]

/-- Witness for C9 at a concrete valid input. -/
theorem serializeAssemble_deterministic_witness :
    serializeAssemble ⟨"example.com", "/", "https", "10.10.1.1,10.10.2.2"⟩ =
      serializeAssemble ⟨"example.com", "/", "https", "10.10.1.1,10.10.2.2"⟩ :=
  serializeAssemble_deterministic _ _ rfl

/-- Success of `optionMapM` is elementwise success, in order. -/
theorem optionMapM_forall2 (f : α → Option β) :
    ∀ (l : List α) (l' : List β), optionMapM f l = some l' →
      List.Forall₂ (fun a b => f a = some b) l l' := by
  intro l
  induction l with
  | nil =>
    intro l' h
    simp only [optionMapM, Option.some.injEq] at h
    subst h
    exact List.Forall₂.nil
  | cons a as ih =>
    intro l' h
    simp only [optionMapM] at h
    cases hfa : f a with
    | none => rw [hfa] at h; simp at h
    | some b =>
      cases hrest : optionMapM f as with
      | none => rw [hfa, hrest] at h; simp at h
      | some bs =>
        rw [hfa, hrest] at h
        simp only [Option.some.injEq] at h
        subst h
        exact List.Forall₂.cons hfa (ih bs hrest)

/-- C8: whenever `from_charm` succeeds, the backend sequence of the
resulting configuration parses elementwise from the comma-separated input
entries, in the same left-to-right order and with the same length, so
duplicates are kept and nothing is dropped or reordered. -/
theorem fromCharm_backends_order_preserved (raw : RawConfig) (cfg : Configuration)
    (h : fromCharm raw = .ok cfg) :
    List.Forall₂ (fun e ip => ipAnyParse e = some ip)
        (backendEntries raw.backends) cfg.backends ∧
      (backendEntries raw.backends).length = cfg.backends.length := by
  simp only [fromCharm] at h
  by_cases he : pyStrip raw.backends = ""
  · rw [if_pos he] at h; exact absurd h (by simp)
  · rw [if_neg he] at h
    cases hm : optionMapM ipAnyParse (backendEntries raw.backends) with
    | none => rw [hm] at h; exact absurd h (by simp)
    | some ips =>
      rw [hm] at h
      cases hp : parseProtocol (pyStrip (pyLower raw.protocol)) with
      | none => rw [hp] at h; exact absurd h (by simp)
      | some proto =>
        rw [hp] at h
        cases hE : fieldErrorList raw with
        | nil =>
          rw [hE] at h
          simp only [Except.ok.injEq] at h
          have hb : cfg.backends = ips := by rw [← h]
          rw [hb]
          have hf := optionMapM_forall2 ipAnyParse (backendEntries raw.backends) ips hm
          exact ⟨hf, hf.length_eq⟩
        | cons e es => rw [hE] at h; exact absurd h (by simp)

/-- Witness for C8: an input that repeats an entry keeps the duplicate and
the order. -/
theorem fromCharm_backends_order_preserved_witness :
    List.Forall₂ (fun e ip => ipAnyParse e = some ip)
        (backendEntries "10.10.1.1, 10.10.2.2, 10.10.1.1")
        [.v4 10 10 1 1, .v4 10 10 2 2, .v4 10 10 1 1] ∧
      (backendEntries "10.10.1.1, 10.10.2.2, 10.10.1.1").length = 3 :=
  fromCharm_backends_order_preserved
    ⟨"example.com", "/", "https", "10.10.1.1, 10.10.2.2, 10.10.1.1"⟩
    ⟨"example.com", "/", [.v4 10 10 1 1, .v4 10 10 2 2, .v4 10 10 1 1], .https⟩ rfl

/-- Backend entry errors vanish exactly when every entry parses. -/
theorem backendsErrors_nil_iff (entries : List String) :
    backendsErrors entries = [] ↔ (optionMapM ipAnyParse entries).isSome := by
  induction entries with
  | nil => simp [backendsErrors, optionMapM]
  | cons e es ih =>
    cases hfe : ipAnyParse e with
    | none =>
      simp [backendsErrors, optionMapM, hfe, List.filterMap_cons]
    | some ip =>
      cases hrest : optionMapM ipAnyParse es with
      | none =>
        simp only [backendsErrors, List.filterMap_cons, hfe, Option.isSome_some, if_true,
          optionMapM, hrest] at *
        simpa [backendsErrors] using ih
      | some bs =>
        simp only [backendsErrors, List.filterMap_cons, hfe, Option.isSome_some, if_true,
          optionMapM, hrest] at *
        simpa [backendsErrors] using ih

/-- Protocol errors vanish exactly when the protocol parses. -/
theorem protocolErrors_nil_iff (pr : String) :
    protocolErrors pr = [] ↔ (parseProtocol pr).isSome := by
  unfold protocolErrors
  by_cases h : (parseProtocol pr).isSome <;> simp [h]

/-- C1 amended: for raw inputs whose backends field is non-empty after
trimming, assembly runs every check and succeeds exactly when no check
fails; otherwise it raises one aggregated `ConfigurationError` holding one
message per failing check (one per failing scalar field, and one per
failing backends entry, with that entry as the displayed input), each
formatted as field, space-equals-space, input, colon-space, reason, the
whole list rendered as a Python list repr after the prefix
`Config error: `. -/
theorem fromCharm_aggregates_all_errors (raw : RawConfig)
    (hne : pyStrip raw.backends ≠ "") :
    ((∃ cfg, fromCharm raw = .ok cfg) ↔ fieldErrorList raw = []) ∧
      (fieldErrorList raw ≠ [] →
        fromCharm raw = .error (.configurationError
          ("Config error: " ++ pyListRepr ((fieldErrorList raw).map fmtFieldError)))) := by
  constructor
  · constructor
    · rintro ⟨cfg, h⟩
      simp only [fromCharm, if_neg hne] at h
      cases hm : optionMapM ipAnyParse (backendEntries raw.backends) with
      | none => rw [hm] at h; exact absurd h (by simp)
      | some ips =>
        rw [hm] at h
        cases hp : parseProtocol (pyStrip (pyLower raw.protocol)) with
        | none => rw [hp] at h; exact absurd h (by simp)
        | some proto =>
          rw [hp] at h
          cases hE : fieldErrorList raw with
          | nil => rfl
          | cons e es => rw [hE] at h; exact absurd h (by simp)
    · intro hE
      have hsplit : backendsErrors (backendEntries raw.backends) = [] ∧
          protocolErrors (pyStrip (pyLower raw.protocol)) = [] := by
        have h4 := hE
        unfold fieldErrorList at h4
        rw [List.append_eq_nil, List.append_eq_nil, List.append_eq_nil] at h4
        tauto
      obtain ⟨ips, hm⟩ := Option.isSome_iff_exists.mp
        ((backendsErrors_nil_iff _).mp hsplit.1)
      obtain ⟨proto, hp⟩ := Option.isSome_iff_exists.mp
        ((protocolErrors_nil_iff _).mp hsplit.2)
      refine ⟨⟨pyStrip raw.hostname, pyStrip raw.path, ips, proto⟩, ?_⟩
      simp only [fromCharm, if_neg hne, hm, hp, hE]
  · intro hE
    simp only [fromCharm, if_neg hne]
    cases hm : optionMapM ipAnyParse (backendEntries raw.backends) with
    | none => simp [configErrMsg]
    | some ips =>
      cases hp : parseProtocol (pyStrip (pyLower raw.protocol)) with
      | none => simp [configErrMsg]
      | some proto =>
        cases hEl : fieldErrorList raw with
        | nil => exact absurd hEl hE
        | cons e es => simp [configErrMsg, ← hEl]

/-- Witness for C1 at an input where all four fields fail: four messages
are aggregated in field order. -/
theorem fromCharm_aggregates_all_errors_witness :
    fromCharm ⟨" bad! ", "/^", " FTP ", "mock, 10.10.1.1"⟩ =
      .error (.configurationError
        ("Config error: " ++ pyListRepr
          ((fieldErrorList ⟨" bad! ", "/^", " FTP ", "mock, 10.10.1.1"⟩).map fmtFieldError))) :=
  (fromCharm_aggregates_all_errors _ (by decide)).2 (by decide)

/-- C1 counterexample: with the backends input `mock,bad` (all other fields
valid), the single failing field yields two collected messages, one per
failing entry, each displaying the entry rather than the raw field input
`mock,bad`, so the error does not contain one message per failing field
formatted with the raw field input. -/
theorem fromCharm_per_entry_backend_errors_cex :
    fromCharm ⟨"example.com", "/", "https", "mock,bad"⟩ =
        .error (.configurationError ("Config error: [" ++ sqs ++
          "backends = mock: value is not a valid IPv4 or IPv6 address" ++ sqs ++ ", " ++ sqs ++
          "backends = bad: value is not a valid IPv4 or IPv6 address" ++ sqs ++ "]")) ∧
      (fieldErrorList ⟨"example.com", "/", "https", "mock,bad"⟩).map
          (fun e => e.field) = ["backends", "backends"] ∧
      (fieldErrorList ⟨"example.com", "/", "https", "mock,bad"⟩).map
          (fun e => e.input) = ["mock", "bad"] :=
  ⟨rfl, rfl, rfl⟩

/-- Segment check of the hostname regex agrees with the label grammar of
the spec. -/
theorem goodLabel_iff_validSegment (l : List Char) :
    goodLabel l ↔ validSegment l = true := by
  simp [goodLabel, validSegment, List.all_eq_true, and_assoc, or_assoc]

/-- C5: hostname validation accepts exactly the grammar of the claim: a
value of at most 255 characters whose dot-separated labels are all good
(one to sixty-three letters, digits or hyphens, no hyphen at either end) is
returned unchanged, while any value with a label longer than sixty-three
characters or holding a disallowed character is rejected with a
hostname-grammar error. -/
theorem validateHostname_spec (s : String) :
    ((s.data.length ≤ 255 ∧ ∀ seg ∈ splitOnChar '.' s.data, goodLabel seg) →
      validateHostname s = .ok s) ∧
    ((∃ seg ∈ splitOnChar '.' s.data,
        63 < seg.length ∨ ∃ c ∈ seg, ¬ (c.isAlpha ∨ c.isDigit ∨ c = '-')) →
      ∃ m, validateHostname s = .error m) := by
  constructor
  · rintro ⟨hlen, hsegs⟩
    have hall : (splitOnChar '.' s.data).all validSegment = true := by
      rw [List.all_eq_true]
      intro seg hmem
      exact (goodLabel_iff_validSegment seg).mp (hsegs seg hmem)
    unfold validateHostname
    rw [if_neg (by omega), if_pos hall]
  · rintro ⟨seg, hmem, hbad⟩
    have hseg : ¬ (validSegment seg = true) := by
      rw [← goodLabel_iff_validSegment]
      intro hg
      rcases hbad with hlen | ⟨c, hc, hcb⟩
      · have := hg.2.1
        omega
      · exact hcb (hg.2.2.1 c hc)
    have hall : ¬ ((splitOnChar '.' s.data).all validSegment = true) := by
      rw [List.all_eq_true]
      push_neg
      exact ⟨seg, hmem, hseg⟩
    by_cases hl : 255 < s.data.length
    · refine ⟨"Hostname cannot be longer than 255", ?_⟩
      unfold validateHostname
      rw [if_pos hl]
    · refine ⟨"Each Hostname segment must be less than 64 in length, and consist of alphanumeric and hyphen", ?_⟩
      unfold validateHostname
      rw [if_neg hl, if_neg hall]

/-- Witness for C5: a well-formed hostname with a subdomain passes and is
returned unchanged, and a hostname with a disallowed character fails. -/
theorem validateHostname_spec_witness :
    validateHostname "sub.example.com" = .ok "sub.example.com" ∧
      ∃ m, validateHostname "exa^mple.com" = .error m :=
  ⟨(validateHostname_spec "sub.example.com").1 ⟨by decide, by decide⟩,
    (validateHostname_spec "exa^mple.com").2 (by decide)⟩

/-- An ASCII decimal digit is no whitespace character. -/
theorem digit_not_space (c : Char) (h : c.isDigit = true) : pyIsSpace c = false := by
  simp only [pyIsSpace, Bool.or_eq_false_iff, decide_eq_false_iff_not]
  refine ⟨⟨⟨⟨⟨fun hc => ?_, fun hc => ?_⟩, fun hc => ?_⟩, fun hc => ?_⟩, fun hc => ?_⟩,
    fun hc => ?_⟩ <;> (subst hc; exact absurd h (by decide))

/-- No allowed duration unit is a whitespace character. -/
theorem unit_not_space (u : Char) (h : u ∈ allowedUnits) : pyIsSpace u = false := by
  simp only [allowedUnits, List.mem_cons, List.not_mem_nil, or_false] at h
  rcases h with rfl | rfl | rfl | rfl | rfl | rfl <;> decide

/-- Splitting consumes one whole whitespace-free token from the front. -/
theorem wsSplitAux_token (t : List Char) (hnw : ∀ c ∈ t, pyIsSpace c = false) :
    ∀ (rest acc : List Char),
      wsSplitAux (t ++ rest) acc = wsSplitAux rest (t.reverse ++ acc) := by
  induction t with
  | nil => intro rest acc; simp
  | cons c t' ih =>
    intro rest acc
    have hc : ¬ pyIsSpace c = true := by
      rw [hnw c (by simp)]; exact Bool.false_ne_true
    rw [List.cons_append]
    show wsSplitAux (c :: (t' ++ rest)) acc = _
    rw [show wsSplitAux (c :: (t' ++ rest)) acc = wsSplitAux (t' ++ rest) (c :: acc) from by
      simp only [wsSplitAux, if_neg hc]]
    rw [ih (fun x hx => hnw x (by simp [hx])) rest (c :: acc)]
    simp

/-- Splitting the space-joined list of non-empty whitespace-free tokens
recovers exactly the tokens. -/
theorem wsSplit_join (toks : List (List Char)) (hne : toks ≠ [])
    (h1 : ∀ t ∈ toks, t ≠ []) (h2 : ∀ t ∈ toks, ∀ c ∈ t, pyIsSpace c = false) :
    wsSplit (joinSep [' '] toks) = toks := by
  induction toks with
  | nil => exact absurd rfl hne
  | cons t ts ih =>
    cases ts with
    | nil =>
      show wsSplitAux (joinSep [' '] [t]) [] = [t]
      have ht := h1 t (by simp)
      rw [show joinSep [' '] [t] = t ++ [] from by simp [joinSep]]
      rw [wsSplitAux_token t (h2 t (by simp)) [] []]
      simp only [wsSplitAux, List.append_nil]
      rw [if_neg (by simpa using ht)]
      simp
    | cons t2 ts2 =>
      have ht := h1 t (by simp)
      have hj : joinSep [' '] (t :: t2 :: ts2) = t ++ ' ' :: joinSep [' '] (t2 :: ts2) := by
        simp [joinSep]
      show wsSplitAux (joinSep [' '] (t :: t2 :: ts2)) [] = t :: t2 :: ts2
      rw [hj, wsSplitAux_token t (h2 t (by simp)) _ []]
      simp only [wsSplitAux, if_pos (show pyIsSpace ' ' = true from rfl)]
      rw [if_neg (by simpa using ht)]
      simp only [List.append_nil, List.reverse_reverse]
      have := ih (by simp) (fun x hx => h1 x (by simp [hx]))
        (fun x hx => h2 x (by simp [hx]))
      exact congrArg (t :: ·) this

/-- Python int succeeds on a non-empty all-digit token with its decimal
value. -/
theorem pyInt_digits (t : List Char) (hne : t ≠ []) (hd : t.all Char.isDigit = true) :
    pyInt? t = some ((natOfDigits t : Int)) := by
  cases t with
  | nil => exact absurd rfl hne
  | cons c rest =>
    have hc : c.isDigit = true := by
      simp only [List.all_cons, Bool.and_eq_true] at hd
      exact hd.1
    have hv : digitsVal? (c :: rest) = some (natOfDigits (c :: rest)) := by
      simp [digitsVal?, hd]
    unfold pyInt?
    split
    · rename_i heq
      injection heq with h1 h2
      subst h1
      exact absurd hc (by decide)
    · rename_i heq
      injection heq with h1 h2
      subst h1
      exact absurd hc (by decide)
    · rw [hv]; rfl

/-- Status-code scan succeeds on in-range digit tokens with their values. -/
theorem parseStatusCodes_ok (toks : List (List Char))
    (h : ∀ t ∈ toks, t ≠ [] ∧ t.all Char.isDigit = true ∧
      100 ≤ natOfDigits t ∧ natOfDigits t ≤ 599) :
    parseStatusCodes toks = .ok (toks.map (fun t => (natOfDigits t : Int))) := by
  induction toks with
  | nil => rfl
  | cons t ts ih =>
    obtain ⟨hne, hd, h1, h2⟩ := h t (by simp)
    have hint := pyInt_digits t hne hd
    simp only [parseStatusCodes, hint]
    rw [if_neg (by omega)]
    rw [ih (fun x hx => h x (by simp [hx]))]
    rfl

/-- C7 amended: a directive of one or more space-separated integer status
codes in the range 100 to 599 followed by one positive-integer duration
token with a unit in `allowedUnits` (s, m, h, d, w, M: the unit y of the
claim is rejected, as the repository unit tests pin) parses successfully to
those codes and that duration, while `200 302 -10d` fails with a
non-positive-duration error, `ok 30m` with a non-integer status-code error,
and `200 99 30m` with an out-of-range status-code error. -/
theorem parseCacheDirective_spec :
    (∀ (codeToks : List (List Char)) (timeDigits : List Char) (unit : Char),
      codeToks ≠ [] →
      (∀ t ∈ codeToks, t ≠ [] ∧ t.all Char.isDigit = true ∧
        100 ≤ natOfDigits t ∧ natOfDigits t ≤ 599) →
      timeDigits ≠ [] → timeDigits.all Char.isDigit = true →
      0 < natOfDigits timeDigits → unit ∈ allowedUnits →
      parseCacheDirective (String.mk (joinSep [' '] (codeToks ++ [timeDigits ++ [unit]]))) =
        .ok (codeToks.map (fun t => (natOfDigits t : Int)),
          (natOfDigits timeDigits : Int), unit)) ∧
      parseCacheDirective "200 302 30m" = .ok ([200, 302], 30, 'm') ∧
      parseCacheDirective "200 302 -10d" = .error (.nonPositiveTime "-10d") ∧
      parseCacheDirective "ok 30m" = .error (.nonIntStatus "ok") ∧
      parseCacheDirective "200 99 30m" = .error (.invalidStatus 99) := by
  refine ⟨?_, rfl, rfl, rfl, rfl⟩
  intro codeToks timeDigits unit hne hcodes htne htd htpos hunit
  have hT : wsSplit (String.mk (joinSep [' '] (codeToks ++ [timeDigits ++ [unit]]))).data
      = codeToks ++ [timeDigits ++ [unit]] := by
    show wsSplit (joinSep [' '] (codeToks ++ [timeDigits ++ [unit]])) = _
    apply wsSplit_join
    · simp
    · intro x hx
      rcases List.mem_append.mp hx with hx | hx
      · exact (hcodes x hx).1
      · simp only [List.mem_singleton] at hx
        subst hx
        simp
    · intro x hx c hc
      rcases List.mem_append.mp hx with hx | hx
      · have := (hcodes x hx).2.1
        rw [List.all_eq_true] at this
        exact digit_not_space c (this c hc)
      · simp only [List.mem_singleton] at hx
        subst hx
        rcases List.mem_append.mp hc with hc | hc
        · rw [List.all_eq_true] at htd
          exact digit_not_space c (htd c hc)
        · simp only [List.mem_singleton] at hc
          subst hc
          exact unit_not_space c hunit
  have hlen : ¬ ((codeToks ++ [timeDigits ++ [unit]]).length < 2) := by
    have hc0 : codeToks.length ≠ 0 := by simpa [List.length_eq_zero] using hne
    simp only [List.length_append, List.length_singleton]
    omega
  simp only [parseCacheDirective, hT]
  rw [if_neg hlen]
  simp only [List.getLast?_concat, Option.getD_some, List.dropLast_concat,
    parseStatusCodes_ok codeToks hcodes, pyInt_digits timeDigits htne htd]
  rw [if_neg (not_not_intro hunit),
    if_neg (show ¬ ((natOfDigits timeDigits : Int) ≤ 0) from by omega)]

/-- C7 counterexample: the directive `200 302 1y` matches the claimed
grammar (status codes 200 and 302 in range, positive duration 1, unit y in
the claimed unit set), yet the parser rejects it with an invalid-time
error, as the repository unit test for `1y` demands. -/
theorem cache_directive_unit_y_rejected_cex :
    parseCacheDirective "200 302 1y" = .error (.invalidTime "1y") ∧
      ¬ 'y' ∈ allowedUnits :=
  ⟨rfl, by decide⟩

/-- Witness for C7 at the directive built from status token 200 and
duration token 30m. -/
theorem parseCacheDirective_spec_witness :
    parseCacheDirective (String.mk (joinSep [' ']
        ([['2', '0', '0']] ++ [['3', '0'] ++ ['m']]))) = .ok ([200], 30, 'm') :=
  parseCacheDirective_spec.1 [['2', '0', '0']] ['3', '0'] 'm' (by decide)
    (by decide) (by decide) (by decide) (by decide) (by decide)

/-- Unfolding step of `ltrim` on a cons cell. -/
theorem ltrim_cons (c : Char) (rest : List Char) :
    ltrim (c :: rest) = if pyIsSpace c then ltrim rest else c :: rest := by
  unfold ltrim
  cases h : pyIsSpace c <;> simp [List.dropWhile, h]

/-- Left trim is idempotent. -/
theorem ltrim_idem (l : List Char) : ltrim (ltrim l) = ltrim l := by
  induction l with
  | nil => rfl
  | cons c rest ih =>
    by_cases hc : pyIsSpace c = true
    · rw [ltrim_cons, if_pos hc, ih]
    · rw [ltrim_cons, if_neg hc, ltrim_cons, if_neg hc]

/-- Left trim of an all-whitespace list is empty. -/
theorem ltrim_eq_nil_of (l : List Char) (h : ∀ c ∈ l, pyIsSpace c = true) :
    ltrim l = [] := by
  induction l with
  | nil => rfl
  | cons c rest ih =>
    rw [ltrim_cons, if_pos (h c (by simp))]
    exact ih (fun x hx => h x (by simp [hx]))

/-- Right trim keeps a leading non-whitespace character. -/
theorem rtrim_cons_of_nonspace (c : Char) (J : List Char) (hc : pyIsSpace c = false) :
    rtrim (c :: J) = c :: rtrim J := by
  cases hr : rtrim J with
  | nil => simp only [rtrim, hr]; rw [if_neg (by simp [hc])]
  | cons r rs => simp only [rtrim, hr]

/-- Right trim is empty exactly on all-whitespace lists. -/
theorem rtrim_eq_nil (l : List Char) :
    rtrim l = [] ↔ ∀ c ∈ l, pyIsSpace c = true := by
  induction l with
  | nil => simp [rtrim]
  | cons c rest ih =>
    constructor
    · intro h
      cases hr : rtrim rest with
      | nil =>
        have hAll := ih.mp hr
        simp only [rtrim, hr] at h
        by_cases hc : pyIsSpace c = true
        · intro x hx
          rcases List.mem_cons.mp hx with rfl | hx
          · exact hc
          · exact hAll x hx
        · rw [if_neg hc] at h
          exact absurd h (by simp)
      | cons r rs =>
        simp only [rtrim, hr] at h
        exact absurd h (by simp)
    · intro h
      have hr : rtrim rest = [] := ih.mpr (fun x hx => h x (by simp [hx]))
      simp only [rtrim, hr]
      rw [if_pos (h c (by simp))]

/-- Unfolding step of `rtrim` on a cons cell. -/
theorem rtrim_cons_eq (c : Char) (rest : List Char) :
    rtrim (c :: rest) = (match rtrim rest with
      | [] => if pyIsSpace c then [] else [c]
      | r :: rs => c :: r :: rs) := rfl

/-- Right trim is idempotent. -/
theorem rtrim_idem (l : List Char) : rtrim (rtrim l) = rtrim l := by
  induction l with
  | nil => rfl
  | cons c rest ih =>
    cases hr : rtrim rest with
    | nil =>
      simp only [rtrim, hr]
      by_cases hc : pyIsSpace c = true
      · rw [if_pos hc]; rfl
      · rw [if_neg hc]
        simp only [rtrim]
        rw [if_neg hc]
    | cons r rs =>
      have h1 : rtrim (c :: rest) = c :: r :: rs := by simp only [rtrim, hr]
      rw [h1]
      have h2 := ih
      rw [hr] at h2
      rw [rtrim_cons_eq, h2]

/-- Left and right trim commute. -/
theorem ltrim_rtrim_comm (l : List Char) : ltrim (rtrim l) = rtrim (ltrim l) := by
  induction l with
  | nil => rfl
  | cons c rest ih =>
    by_cases hc : pyIsSpace c = true
    · have hltrim : ltrim (c :: rest) = ltrim rest := by rw [ltrim_cons, if_pos hc]
      cases hr : rtrim rest with
      | nil =>
        have h1 : rtrim (c :: rest) = [] := by
          simp only [rtrim, hr]
          rw [if_pos hc]
        have h2 : ltrim rest = [] := ltrim_eq_nil_of rest ((rtrim_eq_nil rest).mp hr)
        rw [h1, hltrim, h2]
        rfl
      | cons r rs =>
        have h1 : rtrim (c :: rest) = c :: r :: rs := by simp only [rtrim, hr]
        rw [h1, hltrim, ltrim_cons, if_pos hc, ← hr]
        exact ih
    · have hcf : pyIsSpace c = false := by revert hc; cases pyIsSpace c <;> simp
      have h1 : rtrim (c :: rest) = c :: rtrim rest := rtrim_cons_of_nonspace c rest hcf
      have h2 : ltrim (c :: rest) = c :: rest := by rw [ltrim_cons, if_neg hc]
      rw [h1, h2, h1, ltrim_cons, if_neg hc]

/-- The stripped list is idempotently stripped. -/
theorem strip_idem (l : List Char) : pyStripChars (pyStripChars l) = pyStripChars l := by
  unfold pyStripChars
  rw [ltrim_rtrim_comm (ltrim l), ltrim_idem, rtrim_idem]

/-- Left trim keeps only original characters. -/
theorem ltrim_sublist (l : List Char) : List.Sublist (ltrim l) l := by
  induction l with
  | nil => simp [ltrim]
  | cons c rest ih =>
    by_cases hc : pyIsSpace c = true
    · rw [ltrim_cons, if_pos hc]
      exact ih.trans (List.sublist_cons_self c rest)
    · rw [ltrim_cons, if_neg hc]

/-- Right trim keeps only original characters. -/
theorem rtrim_sublist (l : List Char) : List.Sublist (rtrim l) l := by
  induction l with
  | nil => simp [rtrim]
  | cons c rest ih =>
    cases hr : rtrim rest with
    | nil =>
      simp only [rtrim, hr]
      by_cases hc : pyIsSpace c = true
      · rw [if_pos hc]; exact List.nil_sublist _
      · rw [if_neg hc]
        exact (List.nil_sublist rest).cons₂ c
    | cons r rs =>
      have h1 : rtrim (c :: rest) = c :: r :: rs := by simp only [rtrim, hr]
      rw [h1]
      have h2 : List.Sublist (r :: rs) rest := hr ▸ ih
      exact h2.cons₂ c

/-- Stripping keeps only original characters. -/
theorem strip_subset (l : List Char) (x : Char) (hx : x ∈ pyStripChars l) : x ∈ l :=
  (ltrim_sublist l).subset ((rtrim_sublist (ltrim l)).subset hx)

/-- Right trim distributes over an append whose right part survives. -/
theorem rtrim_append (a b : List Char) (hb : rtrim b ≠ []) :
    rtrim (a ++ b) = a ++ rtrim b := by
  induction a with
  | nil => simp
  | cons c xs ih =>
    rw [List.cons_append]
    cases hx : xs ++ rtrim b with
    | nil => exact absurd (List.append_eq_nil.mp hx).2 hb
    | cons r rs =>
      have h2 : rtrim (xs ++ b) = r :: rs := by rw [ih, hx]
      simp only [rtrim, h2]
      rw [List.cons_append, hx]

/-- Left trim distributes over an append held up by a non-whitespace
character. -/
theorem ltrim_append_nonspace (a : List Char) (c : Char) (b : List Char)
    (hc : pyIsSpace c = false) : ltrim (a ++ c :: b) = ltrim a ++ c :: b := by
  induction a with
  | nil =>
    simp only [List.nil_append]
    rw [ltrim_cons, if_neg (by simp [hc])]
    rfl
  | cons x xs ih =>
    by_cases hx : pyIsSpace x = true
    · rw [List.cons_append, ltrim_cons, if_pos hx, ltrim_cons, if_pos hx, ih]
    · rw [List.cons_append, ltrim_cons, if_neg hx, ltrim_cons, if_neg hx, List.cons_append]

/-- Splitting never yields the empty list of pieces. -/
theorem splitOnChar_ne_nil (sep : Char) (l : List Char) : splitOnChar sep l ≠ [] := by
  cases l with
  | nil => simp [splitOnChar]
  | cons c rest =>
    simp only [splitOnChar]
    by_cases hc : c = sep
    · rw [if_pos hc]; simp
    · rw [if_neg hc]
      cases splitOnChar sep rest <;> simp

/-- Splitting a separator-free list yields that one piece. -/
theorem splitOnChar_not_mem (sep : Char) (l : List Char) (h : ¬ sep ∈ l) :
    splitOnChar sep l = [l] := by
  induction l with
  | nil => rfl
  | cons c rest ih =>
    have hc : ¬ c = sep := fun hh => h (by simp [hh])
    have hr : splitOnChar sep rest = [rest] := ih (fun hh => h (by simp [hh]))
    simp only [splitOnChar, if_neg hc, hr]

/-- Splitting after a separator-free first piece peels that piece off. -/
theorem splitOnChar_append_first (sep : Char) (a b : List Char) (ha : ¬ sep ∈ a) :
    splitOnChar sep (a ++ sep :: b) = a :: splitOnChar sep b := by
  induction a with
  | nil => simp [splitOnChar]
  | cons x xs ih =>
    have hx : ¬ x = sep := fun hh => ha (by simp [hh])
    have hr := ih (fun hh => ha (by simp [hh]))
    rw [List.cons_append]
    simp only [splitOnChar, if_neg hx, hr]

/-- Dropping leading whitespace before splitting on commas changes nothing
once every piece is stripped. -/
theorem split_ltrim_map_strip (l : List Char) :
    (splitOnChar ',' (ltrim l)).map pyStripChars =
      (splitOnChar ',' l).map pyStripChars := by
  induction l with
  | nil => rfl
  | cons c rest ih =>
    by_cases hc : pyIsSpace c = true
    · have hcs : ¬ c = ',' := fun hh => by subst hh; exact absurd hc (by decide)
      rw [ltrim_cons, if_pos hc, ih]
      cases hs : splitOnChar ',' rest with
      | nil => exact absurd hs (splitOnChar_ne_nil ',' rest)
      | cons t0 ts0 =>
        have h2 : splitOnChar ',' (c :: rest) = (c :: t0) :: ts0 := by
          simp only [splitOnChar, if_neg hcs, hs]
        rw [h2]
        simp only [List.map_cons]
        congr 1
        show pyStripChars t0 = pyStripChars (c :: t0)
        unfold pyStripChars
        rw [ltrim_cons, if_pos hc]
    · rw [ltrim_cons, if_neg hc]

/-- Splitting the stripped comma-join of comma-free pieces and stripping
each piece is the same as stripping the pieces. -/
theorem splitJoin_strip (parts : List (List Char)) (hne : parts ≠ [])
    (hcomma : ∀ p ∈ parts, ¬ ',' ∈ p) :
    (splitOnChar ',' (pyStripChars (joinSep [','] parts))).map pyStripChars =
      parts.map pyStripChars := by
  induction parts with
  | nil => exact absurd rfl hne
  | cons p ps ih =>
    cases ps with
    | nil =>
      have hp : ¬ ',' ∈ p := hcomma p (by simp)
      have hps : ¬ ',' ∈ pyStripChars p := fun hx => hp (strip_subset p ',' hx)
      have hj : joinSep [','] [p] = p := by simp [joinSep]
      rw [hj, splitOnChar_not_mem ',' _ hps]
      simp only [List.map_cons, List.map_nil]
      rw [strip_idem]
    | cons q ps2 =>
      have hp : ¬ ',' ∈ p := hcomma p (by simp)
      have hj : joinSep [','] (p :: q :: ps2) = p ++ ',' :: joinSep [','] (q :: ps2) := by
        simp [joinSep]
      rw [hj]
      have hrne : rtrim (',' :: joinSep [','] (q :: ps2)) ≠ [] := by
        rw [rtrim_cons_of_nonspace ',' _ (by decide)]
        simp
      have hstrip : pyStripChars (p ++ ',' :: joinSep [','] (q :: ps2)) =
          ltrim p ++ ',' :: rtrim (joinSep [','] (q :: ps2)) := by
        unfold pyStripChars
        rw [ltrim_append_nonspace p ',' _ (by decide)]
        rw [rtrim_append (ltrim p) _ hrne]
        rw [rtrim_cons_of_nonspace ',' _ (by decide)]
      rw [hstrip]
      have hltp : ¬ ',' ∈ ltrim p := fun hx => hp ((ltrim_sublist p).subset hx)
      rw [splitOnChar_append_first ',' (ltrim p) _ hltp]
      simp only [List.map_cons]
      congr 1
      · show pyStripChars (ltrim p) = pyStripChars p
        unfold pyStripChars
        rw [ltrim_idem]
      · have hcomm := ltrim_rtrim_comm (joinSep [','] (q :: ps2))
        rw [← split_ltrim_map_strip (rtrim (joinSep [','] (q :: ps2))), hcomm]
        exact ih (by simp) (fun x hx => hcomma x (by simp [hx]))

/-- C10: each comma-separated backend entry has its surrounding whitespace
stripped before it is parsed: reading back the comma-join of arbitrary
comma-free entries yields exactly the stripped entries, and concretely the
input `10.10.1.1, 10.10.2.2` (spaces after the comma) is processed exactly
like `10.10.1.1,10.10.2.2`. -/
theorem backendEntries_strip_insensitive :
    (∀ (parts : List (List Char)), parts ≠ [] → (∀ p ∈ parts, ¬ ',' ∈ p) →
      backendEntries (String.mk (joinSep [','] parts)) =
        parts.map (fun p => String.mk (pyStripChars p))) ∧
      fromCharm ⟨"example.com", "/", "https", "10.10.1.1, 10.10.2.2"⟩ =
        fromCharm ⟨"example.com", "/", "https", "10.10.1.1,10.10.2.2"⟩ := by
  constructor
  · intro parts hne hcomma
    unfold backendEntries
    have hdata : (pyStrip (String.mk (joinSep [','] parts))).data
        = pyStripChars (joinSep [','] parts) := rfl
    rw [hdata]
    have hcompose : ∀ (xs : List (List Char)),
        xs.map (fun e => String.mk (pyStripChars e)) =
          (xs.map pyStripChars).map String.mk := by
      intro xs
      rw [List.map_map]
      rfl
    rw [hcompose, hcompose, splitJoin_strip parts hne hcomma]
  · rfl

/-- Witness for C10 on padded entries. -/
theorem backendEntries_strip_insensitive_witness :
    backendEntries (String.mk (joinSep [','] [" 10.10.1.1 ".data, " 10.10.2.2".data])) =
      ["10.10.1.1", "10.10.2.2"] :=
  (backendEntries_strip_insensitive.1 [" 10.10.1.1 ".data, " 10.10.2.2".data]
    (by decide) (by decide)).trans (by decide)
